import Mathlib

/-!
# ethpool-core: work distribution and share validation (`pool.go`)

A shallow embedding of `handleMiner`, `getWorkPackage`, `submitWork` and
`getErrorResponse` of `pool.go`, with the library routines they call
(`strings.Split`, `strings.Replace`, `strconv.ParseUint`, `strconv.FormatInt`,
`common.ToHex`, `common.HexToHash`, `big.Int.Div`, `big.Int.Bytes`).

Go strings are byte sequences, so a string is a list of bytes and `len` is
`List.length`.  The global variables of the program and the effects of one
request (response writes, store writes, upstream calls, verifier calls, reads
of the request body) are the fields of `World`; a run-time panic (index out of
range, failed type assertion, division by zero, nil pointer dereference) is an
explicit outcome.  Logging is not modelled.
-/

set_option maxRecDepth 100000

namespace Ethpool

/-! ## Go strings -/

/-- A Go string: a sequence of bytes. -/
abbrev GoString := List UInt8

/-- The bytes of an ASCII literal of the source. -/
def ascii (s : String) : GoString := s.data.map (fun c => UInt8.ofNat c.toNat)

/-- Worker of `strings.Replace(s, old, new, -1)` for a non-empty `old`: scan
left to right, `skip` counts the bytes of a match still to be dropped. -/
def stringsReplaceAux (old new : GoString) : Nat → GoString → GoString
  | _, [] => []
  | skip + 1, _ :: rest => stringsReplaceAux old new skip rest
  | 0, c :: rest =>
    if old.isPrefixOf (c :: rest) then
      new ++ stringsReplaceAux old new (old.length - 1) rest
    else
      c :: stringsReplaceAux old new 0 rest

/-- The call `strings.Replace(s, old, new, -1)` with non-empty `old`: every
non-overlapping occurrence of `old`, found left to right, becomes `new`. -/
def stringsReplace (s old new : GoString) : GoString :=
  stringsReplaceAux old new 0 s

/-- Worker of `strings.Split(s, sep)` for a non-empty `sep`. -/
def stringsSplitAux (sep : GoString) : Nat → GoString → List GoString
  | _, [] => [[]]
  | skip + 1, _ :: rest => stringsSplitAux sep skip rest
  | 0, c :: rest =>
    if sep.isPrefixOf (c :: rest) then
      [] :: stringsSplitAux sep (sep.length - 1) rest
    else
      match stringsSplitAux sep 0 rest with
      | [] => [[c]]
      | p :: ps => (c :: p) :: ps

/-- The call `strings.Split(s, sep)` with non-empty `sep`: the pieces of `s`
between the occurrences of `sep`; always at least one piece. -/
def stringsSplit (s sep : GoString) : List GoString :=
  stringsSplitAux sep 0 s

/-- Value of a hexadecimal digit, upper or lower case. -/
def hexDigit? (c : UInt8) : Option Nat :=
  let n := c.toNat
  if 48 ≤ n ∧ n ≤ 57 then some (n - 48)
  else if 97 ≤ n ∧ n ≤ 102 then some (n - 87)
  else if 65 ≤ n ∧ n ≤ 70 then some (n - 55)
  else none

/-- Left-to-right accumulation of hexadecimal digits; `none` at the first
byte that is not a hexadecimal digit. -/
def parseHexAux : Nat → GoString → Option Nat
  | acc, [] => some acc
  | acc, c :: rest =>
    match hexDigit? c with
    | some d => parseHexAux (16 * acc + d) rest
    | none => none

/-- The call `strconv.ParseUint(s, 16, 64)`: `none` stands for a non-nil
error (empty input, a byte that is no hex digit, value above `2^64 - 1`). -/
def strconvParseUint16 (s : GoString) : Option Nat :=
  match s with
  | [] => none
  | _ =>
    match parseHexAux 0 s with
    | some n => if n < 2 ^ 64 then some n else none
    | none => none

/-- Decimal digits of a natural number, most significant first. -/
def decimalDigits (n : Nat) : GoString :=
  (Nat.toDigits 10 n).map (fun c => UInt8.ofNat c.toNat)

/-- The call `strconv.FormatInt(i, 10)`. -/
def strconvFormatInt (i : Int) : GoString :=
  if i < 0 then 45 :: decimalDigits i.natAbs else decimalDigits i.natAbs

/-! ## go-ethereum `common` and `math/big` -/

/-- Lower-case hexadecimal digit of a value below 16. -/
def hexChar (d : Nat) : UInt8 :=
  if d < 10 then UInt8.ofNat (48 + d) else UInt8.ofNat (87 + d)

/-- The call `hex.EncodeToString`: two lower-case digits per byte. -/
def hexEncode : List UInt8 → GoString
  | [] => []
  | b :: rest => hexChar (b.toNat / 16) :: hexChar (b.toNat % 16) :: hexEncode rest

/-- The call `hex.DecodeString`: the bytes decoded before the first error,
and whether there was none; an error is a pair with a byte that is no hex
digit, or a single byte left over at the end. -/
def hexDecodeString : GoString → List UInt8 × Bool
  | [] => ([], true)
  | [_] => ([], false)
  | a :: b :: rest =>
    match hexDigit? a, hexDigit? b with
    | some x, some y =>
      (UInt8.ofNat (16 * x + y) :: (hexDecodeString rest).1, (hexDecodeString rest).2)
    | _, _ => ([], false)

/-- The function `common.ToHex`: `0x` and the hex of the bytes, `0x0` for no
bytes. -/
def ToHex (b : List UInt8) : GoString :=
  match hexEncode b with
  | [] => ascii "0x0"
  | h => ascii "0x" ++ h

/-- The function `common.Hex2Bytes`: the decoding error is dropped, the bytes
decoded before it are kept. -/
def Hex2Bytes (s : GoString) : List UInt8 :=
  (hexDecodeString s).1

/-- The function `common.FromHex`: strips one leading `0x`, pads an odd number
of digits with a leading `0`, decodes; nil for a string shorter than two
bytes. -/
def FromHex (s : GoString) : List UInt8 :=
  if s.length > 1 then
    let s1 := if s.take 2 = ascii "0x" then s.drop 2 else s
    let s2 := if s1.length % 2 = 1 then 48 :: s1 else s1
    Hex2Bytes s2
  else []

/-- A 32-byte hash (`common.Hash`). -/
abbrev Hash := List UInt8

/-- The function `common.BytesToHash`: the last 32 bytes of the input,
left-padded with zero bytes to 32. -/
def BytesToHash (b : List UInt8) : Hash :=
  let b1 := if b.length > 32 then b.drop (b.length - 32) else b
  List.replicate (32 - b1.length) 0 ++ b1

/-- The function `common.HexToHash`. -/
def HexToHash (s : GoString) : Hash := BytesToHash (FromHex s)

/-- Worker of `bitLen`. -/
def bitLenAux : Nat → Nat → Nat
  | 0, _ => 0
  | fuel + 1, n => if n = 0 then 0 else bitLenAux fuel (n / 2) + 1

/-- Number of binary digits of a natural number (`0` for `0`). -/
def bitLen (n : Nat) : Nat := bitLenAux n n

/-- Worker of `bigIntBytes`: base-256 digits, most significant first. -/
def natBytesAux : Nat → Nat → List UInt8 → List UInt8
  | 0, _, acc => acc
  | fuel + 1, n, acc =>
    if n = 0 then acc else natBytesAux fuel (n / 256) (UInt8.ofNat (n % 256) :: acc)

/-- The method `(*big.Int).Bytes`: big-endian bytes of the absolute value,
without leading zero bytes. -/
def bigIntBytes (x : Int) : List UInt8 :=
  natBytesAux (bitLen x.natAbs) x.natAbs []

/-- The constant `pow256 = common.BigPow(2, 256)`. -/
def pow256 : Int := 2 ^ 256

/-! ## float64 -/

/-- An IEEE 754 binary64 value: `finite neg m e` is `(-1)^neg * m * 2^e`. -/
inductive Float64
  | finite (neg : Bool) (m : Nat) (e : Int)
  | inf (neg : Bool)
  | nan
  deriving DecidableEq, Repr

namespace Float64

/-- Rounding of `m * 2^e` to the nearest binary64 value, ties to even: at
most 53 significant bits, exponent at least `-1074`, infinity from `2^1024`
on. -/
def round (neg : Bool) (m : Nat) (e : Int) : Float64 :=
  if m = 0 then finite neg 0 0
  else
    let shift : Nat := max (bitLen m - 53) (-1074 - e).toNat
    let q := m / 2 ^ shift
    let r := m % 2 ^ shift
    let q1 :=
      if shift = 0 then q
      else if 2 ^ shift < 2 * r ∨ (2 * r = 2 ^ shift ∧ q % 2 = 1) then q + 1
      else q
    let e1 : Int := e + shift
    if q1 = 0 then finite neg 0 0
    else if (1024 : Int) < (bitLen q1 : Int) + e1 then inf neg
    else finite neg q1 e1

/-- The float64 value of a natural-number constant of the source. -/
def ofNat (n : Nat) : Float64 := round false n 0

/-- The float64 product. -/
def mul : Float64 → Float64 → Float64
  | nan, _ => nan
  | _, nan => nan
  | inf a, inf b => inf (a != b)
  | inf a, finite b m _ => if m = 0 then nan else inf (a != b)
  | finite a m _, inf b => if m = 0 then nan else inf (a != b)
  | finite a m e, finite b n f => round (a != b) (m * n) (e + f)

/-- The integer part (truncation toward zero) of a finite value. -/
def trunc (neg : Bool) (m : Nat) (e : Int) : Int :=
  let mag : Nat := if 0 ≤ e then m * 2 ^ e.toNat else m / 2 ^ (-e).toNat
  if neg then -(mag : Int) else (mag : Int)

end Float64

/-! ## JSON values and the program's types -/

/-- A decoded JSON value (`interface{}` as produced by `encoding/json`). -/
inductive JsonValue
  | null
  | bool (b : Bool)
  | number (f : Float64)
  | string (s : GoString)
  | array (xs : List JsonValue)
  | object (kvs : List (GoString × JsonValue))

/-- The type assertion `v.(string)`: `none` is the failed assertion. -/
def JsonValue.asString? : JsonValue → Option GoString
  | .string s => some s
  | _ => none

/-- The type `ResponseArray`. -/
structure ResponseArray where
  Id : Int
  Jsonrpc : GoString
  Result : List JsonValue

/-- The type `Request`. -/
structure Request where
  Id : Int
  Jsonrpc : GoString
  Method : GoString
  Params : List JsonValue

/-- The type `block`; `difficulty` is a `*big.Int`, `none` is the nil
pointer. -/
structure block where
  difficulty : Option Int
  hashNoNonce : Hash
  nonce : Nat
  mixDigest : Hash
  number : Nat
  deriving DecidableEq

/-- A run-time panic of the Go program. -/
inductive Panic
  | indexOutOfRange
  | typeAssertion
  | divisionByZero
  | nilDereference
  deriving DecidableEq, Repr

/-- The collaborators of the program that are not part of it. -/
structure Env where
  /-- The call `strconv.ParseFloat(s, 64)`; `none` is a non-nil error. -/
  ParseFloat : GoString → Option Float64
  /-- Result of `int64(f)` when `f` is NaN, infinite or out of the int64
  range (implementation-dependent in Go). -/
  int64Indefinite : Float64 → Int
  /-- The verdict of the proof-of-work check `hasher.Verify` on a block whose
  difficulty is not nil. -/
  Verify : block → Bool
  /-- The call `json.Marshal` on a `ResponseArray`. -/
  Marshal : ResponseArray → GoString

/-- The global variables of the program and the observable effects so far. -/
structure World where
  /-- The global `currWork`; `none` is nil. -/
  currWork : Option ResponseArray
  /-- The global `pendingBlockNumber`. -/
  pendingBlockNumber : Nat
  /-- The global `pendingBlockDifficulty`; `none` is nil. -/
  pendingBlockDifficulty : Option Int
  /-- The entries of `levelDB`, one per key. -/
  levelDB : List (GoString × GoString)
  /-- The upstream calls made through `callBool`: method and params. -/
  upstream : List (GoString × List JsonValue)
  /-- The strings written to the response writer, in order. -/
  rw : List GoString
  /-- How many times the request body was decoded. -/
  bodyReads : Nat
  /-- The blocks handed to `hasher.Verify`, in order. -/
  verified : List block

/-- How a handler run ends: the final world, and the panic if there was one. -/
structure Outcome where
  world : World
  panic : Option Panic

/-- The path variables of the route `/miner/{miner}/{difficulty}`. -/
structure Vars where
  miner : GoString
  difficulty : GoString

/-- The call `levelDB.Put(key, value, nil)`: the entry of `key` is replaced
or created, the other entries stay. -/
def levelDBPut (db : List (GoString × GoString)) (key value : GoString) :
    List (GoString × GoString) :=
  (key, value) :: db.filter (fun e => e.1 ≠ key)

/-- The call `fmt.Fprint(rw, s)`. -/
def World.write (w : World) (s : GoString) : World :=
  { w with rw := w.rw ++ [s] }

/-- The conversion `int64(f)`. -/
def toInt64 (env : Env) (f : Float64) : Int :=
  match f with
  | .finite neg m e =>
    let i := Float64.trunc neg m e
    if -(2 : Int) ^ 63 ≤ i ∧ i < (2 : Int) ^ 63 then i else env.int64Indefinite f
  | _ => env.int64Indefinite f

/-! ## The program -/

/-- The variable `okRequest`. -/
def okRequest : GoString :=
  ascii "\x7b\n  \"id\":64,\n  \"jsonrpc\": \"2.0\",\n  \"result\": true\n\x7d"

/-- The function `getErrorResponse`. -/
def getErrorResponse (errorMsg : GoString) : GoString :=
  ascii "\x7b\n    \"id\":64,\n    \"jsonrpc\": \"2.0\",\n    \"result\": false,\n    \"error\": \""
    ++ errorMsg ++ ascii "\"\n  \x7d"

/-- The function `getWorkPackage`.  `response.Result` is the slice
`currWork.Result[:]`, which shares its backing array with `currWork.Result`:
the assignment `response.Result[2] = diffBytes` is a write to both. -/
def getWorkPackage (env : Env) (difficulty : Int) (w : World) :
    Except Panic (GoString × World) :=
  match w.currWork with
  | none => .ok (getErrorResponse (ascii "Current work unavailable"), w)
  | some cw =>
    if difficulty = 0 then .error .divisionByZero
    else
      let diff := Int.ediv pow256 difficulty
      let diffBytes := ToHex (bigIntBytes diff)
      if 2 < cw.Result.length then
        let result := cw.Result.set 2 (.string diffBytes)
        let response : ResponseArray := { Id := cw.Id, Jsonrpc := cw.Jsonrpc, Result := result }
        .ok (env.Marshal response, { w with currWork := some { cw with Result := result } })
      else .error .indexOutOfRange

/-- The function `submitWork`: one upstream call `eth_submitWork` with the
given params; its result is only logged. -/
def submitWork (params : List JsonValue) (w : World) : World :=
  { w with upstream := w.upstream ++ [(ascii "eth_submitWork", params)] }

/-- The local `minerAdjustedDifficulty` of `handleMiner`. -/
def minerAdjustedDifficulty (env : Env) (difficulty : GoString) : Int :=
  let minerDifficulty :=
    match env.ParseFloat difficulty with
    | some f => f
    | none => Float64.ofNat 5
  toInt64 env ((minerDifficulty.mul (Float64.ofNat 1000000)).mul (Float64.ofNat 100))

/-- The local `minerArray` of `handleMiner`. -/
def minerArray (vars : Vars) : List GoString := stringsSplit vars.miner (ascii ".")

/-- The local `miner` of `handleMiner`. -/
def minerOf (vars : Vars) : GoString :=
  stringsReplace ((minerArray vars).headD []) (ascii "0x") []

/-- The local `worker` of `handleMiner`. -/
def workerOf (vars : Vars) : GoString :=
  if (minerArray vars).length = 2 then (minerArray vars).getD 1 [] else ascii "default"

/-- The element `t.Params[i].(string)`: index check, then type assertion. -/
def paramString (params : List JsonValue) (i : Nat) : Except Panic GoString :=
  match params[i]? with
  | none => .error .indexOutOfRange
  | some v =>
    match v.asString? with
    | none => .error .typeAssertion
    | some s => .ok s

/-- The share record written to the store. -/
def shareRecord (mixDigest miner : GoString) (difficulty : Int) (worker : GoString) :
    GoString :=
  ascii "MIX:" ++ mixDigest ++ ascii "|MINER:\"" ++ miner ++ ascii "|DIFFICULTY:"
    ++ strconvFormatInt difficulty ++ ascii "|WORKER:" ++ worker

/-- The struct literals `myBlock` and `myBlockRealDiff` of `handleMiner`: they
differ in the difficulty only. -/
def candidate (w : World) (hashNoNonce mixDigest : GoString) (nonce : Nat)
    (difficulty : Option Int) : block :=
  { number := w.pendingBlockNumber, hashNoNonce := HexToHash hashNoNonce,
    difficulty := difficulty, nonce := nonce, mixDigest := HexToHash mixDigest }

/-- The call `hasher.Verify(b)`.  The check compares the difficulty of the
block (`difficulty.Cmp`), so a nil difficulty is a nil pointer dereference;
otherwise the call returns the verdict. -/
def hasherVerify (env : Env) (b : block) : Except Panic Bool :=
  match b.difficulty with
  | none => .error .nilDereference
  | some _ => .ok (env.Verify b)

/-- A check passes when `hasher.Verify` returns true: it neither returns
false nor panics. -/
def checkPasses (env : Env) (b : block) : Bool :=
  match hasherVerify env b with
  | .ok verdict => verdict
  | .error _ => false

/-- The branch `t.Method == "eth_submitWork"` of `handleMiner`. -/
def handleSubmitWork (env : Env) (miner worker : GoString) (adjusted : Int)
    (t : Request) (w : World) : Outcome :=
  let paramsOrig := t.Params
  match paramString t.Params 1 with
  | .error p => { world := w, panic := some p }
  | .ok hashNoNonce =>
    match paramString t.Params 0 with
    | .error p => { world := w, panic := some p }
    | .ok nonceText =>
      match strconvParseUint16 (stringsReplace nonceText (ascii "0x") []) with
      | none =>
        { world := w.write (getErrorResponse (ascii "Invalid nonce provided")), panic := none }
      | some nonce =>
        match paramString t.Params 2 with
        | .error p => { world := w, panic := some p }
        | .ok mixDigest =>
          let myBlock := candidate w hashNoNonce mixDigest nonce (some adjusted)
          let myBlockRealDiff :=
            candidate w hashNoNonce mixDigest nonce w.pendingBlockDifficulty
          let w1 := { w with verified := w.verified ++ [myBlock] }
          match hasherVerify env myBlock with
          | .error p => { world := w1, panic := some p }
          | .ok true =>
            let w2 := { w1 with verified := w1.verified ++ [myBlockRealDiff] }
            match hasherVerify env myBlockRealDiff with
            | .error p => { world := w2, panic := some p }
            | .ok real =>
              let w3 := if real then submitWork paramsOrig w2 else w2
              let share := shareRecord mixDigest miner adjusted worker
              let w4 := { w3 with levelDB := levelDBPut w3.levelDB mixDigest share }
              { world := w4.write okRequest, panic := none }
          | .ok false =>
            let w2 := w1.write (getErrorResponse (ascii "Provided PoW solution is invalid!"))
            { world := w2.write okRequest, panic := none }

/-- The function `handleMiner`; `body` is what `decoder.Decode(&t)` yields,
`none` for a decoding error. -/
def handleMiner (env : Env) (vars : Vars) (body : Option Request) (w : World) : Outcome :=
  let adjusted := minerAdjustedDifficulty env vars.difficulty
  if (minerArray vars).length = 0 ∨ (minerArray vars).length > 2 then
    { world := w.write (getErrorResponse
        (ascii "Invalid miner & worker provided: " ++ vars.miner)), panic := none }
  else
    let miner := minerOf vars
    let worker := workerOf vars
    if miner.length ≠ 40 then
      { world := w.write (getErrorResponse
          (ascii "Invalid ethereum address provided: 0x" ++ miner)), panic := none }
    else
      let w0 := { w with bodyReads := w.bodyReads + 1 }
      match body with
      | none =>
        { world := w0.write (getErrorResponse (ascii "Invalid JSON request")), panic := none }
      | some t =>
        if t.Method = ascii "eth_getWork" then
          match getWorkPackage env adjusted w0 with
          | .ok (s, w1) => { world := w1.write s, panic := none }
          | .error p => { world := w0, panic := some p }
        else if t.Method = ascii "eth_submitHashrate" then
          { world := w0.write okRequest, panic := none }
        else if t.Method = ascii "eth_submitWork" then
          handleSubmitWork env miner worker adjusted t w0
        else
          { world := w0.write (getErrorResponse
              (ascii "Method " ++ t.Method ++ ascii " not implemented!")), panic := none }

/-! ## Definitions used in the statements -/

/-- Value of a big-endian byte string continuing the value `acc`. -/
def bytesValue (acc : Nat) : List UInt8 → Nat
  | [] => acc
  | b :: rest => bytesValue (256 * acc + b.toNat) rest

/-! ## Sample inputs -/

/-- A few values of `strconv.ParseFloat(s, 64)`; every other string is
treated as unparsable. -/
def parseFloatTable (s : GoString) : Option Float64 :=
  if s = ascii "5.0" then some (.finite false 5 0)
  else if s = ascii "0" then some (.finite false 0 0)
  else if s = ascii "2.5" then some (.finite false 5 (-1))
  else none

/-- A stand-in for `json.Marshal`: the fields in order, strings verbatim. -/
def sampleMarshal (r : ResponseArray) : GoString :=
  strconvFormatInt r.Id ++ ascii "," ++ r.Jsonrpc ++
    (r.Result.map (fun v => ascii "," ++ (v.asString?).getD [])).flatten

/-- An environment whose verifier accepts exactly the blocks it is told to:
`share` for the block at the miner difficulty `500000000`, `real` for the
others. -/
def sampleEnv (share real : Bool) : Env :=
  { ParseFloat := parseFloatTable
    int64Indefinite := fun _ => -(2 : Int) ^ 63
    Verify := fun b => if b.difficulty = some 500000000 then share else real
    Marshal := sampleMarshal }

/-- A world with a cached work package, a pending block and an empty store. -/
def sampleWorld : World :=
  { currWork := some
      { Id := 1, Jsonrpc := ascii "2.0",
        Result := [.string (ascii "0xaa11"), .string (ascii "0xbb22"), .string (ascii "0x0fff")] }
    pendingBlockNumber := 100
    pendingBlockDifficulty := some 17179869184
    levelDB := []
    upstream := []
    rw := []
    bodyReads := 0
    verified := [] }

/-- A miner segment with address and worker, and the hint `5.0`. -/
def sampleVars : Vars :=
  { miner := ascii "0x52bc44d5378309ee2abf1539bf71de1b7d7be3b5.rig1"
    difficulty := ascii "5.0" }

/-- A well-formed `eth_submitWork` request. -/
def sampleSubmit : Request :=
  { Id := 7, Jsonrpc := ascii "2.0", Method := ascii "eth_submitWork"
    Params :=
      [.string (ascii "0x00000000000004d2"),
       .string (ascii "0x1111111111111111111111111111111111111111111111111111111111111111"),
       .string (ascii "0xabcdef0000000000000000000000000000000000000000000000000000000001")] }

/-- The mix digest parameter of `sampleSubmit`. -/
def sampleMix : GoString :=
  ascii "0xabcdef0000000000000000000000000000000000000000000000000000000001"

/-- The sample world with an older share already stored under `sampleMix`
and a share under another key. -/
def sampleWorldStored : World :=
  { sampleWorld with
    levelDB := [(sampleMix, ascii "MIX:old"), (ascii "0x02", ascii "MIX:0x02")] }

/-- An `eth_getWork` request. -/
def sampleGetWork : Request :=
  { Id := 8, Jsonrpc := ascii "2.0", Method := ascii "eth_getWork", Params := [] }

/-- The third element of the cached work package, when it is a string. -/
def cachedTarget (w : World) : Option GoString :=
  w.currWork.bind (fun cw => cw.Result[2]?.bind JsonValue.asString?)

/-- The address notion of the specification: after one optional leading
`0x`, exactly 40 hexadecimal characters. -/
def specValidAddress (s : GoString) : Bool :=
  let body := if s.take 2 = ascii "0x" then s.drop 2 else s
  body.length = 40 && body.all (fun c => (hexDigit? c).isSome)

/-- The part of a miner segment before its first `.`. -/
def addressPart (segment : GoString) : GoString :=
  segment.takeWhile (fun c => c ≠ 46)

/-- A valid address without the `0x`. -/
def sampleAddress : GoString := ascii "52bc44d5378309ee2abf1539bf71de1b7d7be3b5"

/-- The sample world with no cached work package. -/
def sampleWorldNoWork : World := { sampleWorld with currWork := none }

/-- The sample world before either refresh loop has fetched anything. -/
def sampleWorldCold : World :=
  { sampleWorld with currWork := none, pendingBlockDifficulty := none }

/-- The mix digest of `sampleSubmit` spelled with upper-case digits. -/
def sampleMixUpper : GoString :=
  ascii "0xABCDEF0000000000000000000000000000000000000000000000000000000001"

/-- The mix digest of `sampleSubmit` spelled without the `0x`. -/
def sampleMixBare : GoString :=
  ascii "abcdef0000000000000000000000000000000000000000000000000000000001"

/-- The request `sampleSubmit` with another spelling of the mix digest. -/
def sampleSubmitAs (mixDigest : GoString) : Request :=
  { sampleSubmit with
    Params :=
      [.string (ascii "0x00000000000004d2"),
       .string (ascii "0x1111111111111111111111111111111111111111111111111111111111111111"),
       .string mixDigest] }

/-! ## Basic facts -/

theorem stringsSplitAux_ne_nil (sep : GoString) (s : GoString) :
    ∀ k, stringsSplitAux sep k s ≠ [] := by
  induction s with
  | nil => intro k; cases k <;> simp [stringsSplitAux]
  | cons c rest ih =>
    intro k
    cases k with
    | succ k => simpa [stringsSplitAux] using ih k
    | zero =>
      simp only [stringsSplitAux]
      split
      · simp
      · split <;> simp

theorem minerArray_length_pos (vars : Vars) : 0 < (minerArray vars).length := by
  unfold minerArray stringsSplit
  exact List.length_pos.mpr (stringsSplitAux_ne_nil _ _ _)

theorem submitWork_ne_getWork : ascii "eth_submitWork" ≠ ascii "eth_getWork" := by decide

theorem submitWork_ne_submitHashrate :
    ascii "eth_submitWork" ≠ ascii "eth_submitHashrate" := by decide

/-- With an accepted miner segment and the method `eth_submitWork`,
`handleMiner` is its submit branch run after one read of the body. -/
theorem handleMiner_submit (env : Env) (vars : Vars) (t : Request) (w : World)
    (hlen : (minerArray vars).length ≤ 2) (haddr : (minerOf vars).length = 40)
    (hmethod : t.Method = ascii "eth_submitWork") :
    handleMiner env vars (some t) w =
      handleSubmitWork env (minerOf vars) (workerOf vars)
        (minerAdjustedDifficulty env vars.difficulty) t
        { w with bodyReads := w.bodyReads + 1 } := by
  have hpos := minerArray_length_pos vars
  have hguard : ¬ ((minerArray vars).length = 0 ∨ (minerArray vars).length > 2) := by omega
  simp only [handleMiner]
  rw [if_neg hguard]
  simp [haddr, hmethod, submitWork_ne_getWork, submitWork_ne_submitHashrate]

/-- A call `hasher.Verify` on a block with a difficulty returns the verdict. -/
theorem hasherVerify_some (env : Env) (w : World) (hashNoNonce mixDigest : GoString)
    (nonce : Nat) (d : Int) :
    hasherVerify env (candidate w hashNoNonce mixDigest nonce (some d)) =
      .ok (env.Verify (candidate w hashNoNonce mixDigest nonce (some d))) := rfl

/-- A call `hasher.Verify` on a block with a nil difficulty panics. -/
theorem hasherVerify_none (env : Env) (w : World) (hashNoNonce mixDigest : GoString)
    (nonce : Nat) :
    hasherVerify env (candidate w hashNoNonce mixDigest nonce none) =
      .error .nilDereference := rfl

/-- The submit branch once the three params are strings and the nonce parses,
when the pending-block difficulty is known. -/
theorem handleSubmitWork_parsed (env : Env) (miner worker : GoString) (adjusted : Int)
    (t : Request) (w : World) (nonceText hashNoNonce mixDigest : GoString) (nonce : Nat)
    (d : Int)
    (h1 : paramString t.Params 1 = .ok hashNoNonce)
    (h0 : paramString t.Params 0 = .ok nonceText)
    (hnonce : strconvParseUint16 (stringsReplace nonceText (ascii "0x") []) = some nonce)
    (h2 : paramString t.Params 2 = .ok mixDigest)
    (hd : w.pendingBlockDifficulty = some d) :
    handleSubmitWork env miner worker adjusted t w =
      let b1 := candidate w hashNoNonce mixDigest nonce (some adjusted)
      let b2 := candidate w hashNoNonce mixDigest nonce (some d)
      let w2 : World := { w with verified := w.verified ++ [b1] ++ [b2] }
      let w3 : World := if env.Verify b2 then submitWork t.Params w2 else w2
      if env.Verify b1 then
        { world :=
            ({ w3 with
                levelDB := levelDBPut w3.levelDB mixDigest
                  (shareRecord mixDigest miner adjusted worker) }).write okRequest,
          panic := none }
      else
        { world :=
            (({ w with verified := w.verified ++ [b1] }).write
              (getErrorResponse (ascii "Provided PoW solution is invalid!"))).write okRequest,
          panic := none } := by
  simp only [handleSubmitWork, h1, h0, hnonce, h2, hd, hasherVerify_some]
  cases env.Verify (candidate w hashNoNonce mixDigest nonce (some adjusted)) <;> simp

/-- The submit branch once the three params are strings and the nonce parses,
when the pending-block difficulty is nil: a share that passes Check 1 ends in
the nil pointer dereference of Check 2. -/
theorem handleSubmitWork_parsed_nil (env : Env) (miner worker : GoString) (adjusted : Int)
    (t : Request) (w : World) (nonceText hashNoNonce mixDigest : GoString) (nonce : Nat)
    (h1 : paramString t.Params 1 = .ok hashNoNonce)
    (h0 : paramString t.Params 0 = .ok nonceText)
    (hnonce : strconvParseUint16 (stringsReplace nonceText (ascii "0x") []) = some nonce)
    (h2 : paramString t.Params 2 = .ok mixDigest)
    (hd : w.pendingBlockDifficulty = none) :
    handleSubmitWork env miner worker adjusted t w =
      let b1 := candidate w hashNoNonce mixDigest nonce (some adjusted)
      let b2 := candidate w hashNoNonce mixDigest nonce none
      if env.Verify b1 then
        { world := { w with verified := w.verified ++ [b1] ++ [b2] },
          panic := some .nilDereference }
      else
        { world :=
            (({ w with verified := w.verified ++ [b1] }).write
              (getErrorResponse (ascii "Provided PoW solution is invalid!"))).write okRequest,
          panic := none } := by
  simp only [handleSubmitWork, h1, h0, hnonce, h2, hd, hasherVerify_some, hasherVerify_none]
  cases env.Verify (candidate w hashNoNonce mixDigest nonce (some adjusted)) <;> simp

/-- The submit branch when `t.Params[2].(string)` panics. -/
theorem handleSubmitWork_param2_panic (env : Env) (miner worker : GoString) (adjusted : Int)
    (t : Request) (w : World) (nonceText hashNoNonce : GoString) (nonce : Nat) (p : Panic)
    (h1 : paramString t.Params 1 = .ok hashNoNonce)
    (h0 : paramString t.Params 0 = .ok nonceText)
    (hnonce : strconvParseUint16 (stringsReplace nonceText (ascii "0x") []) = some nonce)
    (h2 : paramString t.Params 2 = .error p) :
    handleSubmitWork env miner worker adjusted t w = { world := w, panic := some p } := by
  simp only [handleSubmitWork, h1, h0, hnonce, h2]

/-- After a `Put` the store has exactly one entry under the key. -/
theorem levelDBPut_filter_key (db : List (GoString × GoString)) (key value : GoString) :
    (levelDBPut db key value).filter (fun e => e.1 = key) = [(key, value)] := by
  simp [levelDBPut, List.filter_cons, List.filter_filter]

/-- A `Put` leaves the entries under the other keys as they were. -/
theorem levelDBPut_filter_other (db : List (GoString × GoString)) (key value : GoString) :
    (levelDBPut db key value).filter (fun e => e.1 ≠ key) =
      db.filter (fun e => e.1 ≠ key) := by
  simp [levelDBPut, List.filter_cons, List.filter_filter]

/-! ## Splitting the miner segment -/

theorem ascii_dot : ascii "." = [46] := rfl

theorem ascii_0x : ascii "0x" = [48, 120] := rfl

theorem splitDot_cons (c : UInt8) (rest : GoString) :
    stringsSplitAux [46] 0 (c :: rest) =
      if c = 46 then [] :: stringsSplitAux [46] 0 rest
      else ((stringsSplitAux [46] 0 rest).headD [] |>.cons c) ::
        (stringsSplitAux [46] 0 rest).tail := by
  have hne := stringsSplitAux_ne_nil [46] rest 0
  by_cases hc : c = 46
  · subst hc
    simp [stringsSplitAux, List.isPrefixOf]
  · have hp : List.isPrefixOf [46] (c :: rest) = false := by
      simp [List.isPrefixOf]
      exact fun h => hc h.symm
    simp only [stringsSplitAux, hp, if_neg hc]
    cases h : stringsSplitAux [46] 0 rest with
    | nil => exact absurd h hne
    | cons p ps => simp

theorem splitDot_length (s : GoString) :
    (stringsSplit s (ascii ".")).length = s.count 46 + 1 := by
  unfold stringsSplit
  rw [ascii_dot]
  induction s with
  | nil => simp [stringsSplitAux]
  | cons c rest ih =>
    have hne := stringsSplitAux_ne_nil [46] rest 0
    rw [splitDot_cons]
    by_cases hc : c = 46
    · subst hc
      simp [ih]
    · have hc' : ¬ (46 : UInt8) = c := fun h => hc h.symm
      simp only [if_neg hc, List.length_cons, List.length_tail, List.count_cons, beq_iff_eq]
      rw [ih]
      simp [hc]

theorem splitDot_head (s : GoString) :
    (stringsSplit s (ascii ".")).headD [] = s.takeWhile (fun c => c ≠ 46) := by
  unfold stringsSplit
  rw [ascii_dot]
  induction s with
  | nil => simp [stringsSplitAux]
  | cons c rest ih =>
    rw [splitDot_cons]
    by_cases hc : c = 46
    · subst hc
      simp
    · simp only [List.headD_eq_head?_getD] at ih
      simp [hc, List.takeWhile_cons]
      simpa using ih

theorem splitDot_of_not_mem (s : GoString) (h : (46 : UInt8) ∉ s) :
    stringsSplitAux [46] 0 s = [s] := by
  induction s with
  | nil => rfl
  | cons c rest ih =>
    have hc : c ≠ 46 := fun e => h (by simp [e])
    have hr : (46 : UInt8) ∉ rest := fun e => h (by simp [e])
    rw [splitDot_cons, if_neg hc, ih hr]
    rfl

theorem splitDot_append (a w : GoString) (h : (46 : UInt8) ∉ a) :
    stringsSplitAux [46] 0 (a ++ 46 :: w) = a :: stringsSplitAux [46] 0 w := by
  induction a with
  | nil => simp [splitDot_cons]
  | cons c rest ih =>
    have hc : c ≠ 46 := fun e => h (by simp [e])
    have hr : (46 : UInt8) ∉ rest := fun e => h (by simp [e])
    rw [List.cons_append, splitDot_cons, if_neg hc, ih hr]
    rfl

theorem replace0x_of_not_mem (s : GoString) (h : (120 : UInt8) ∉ s) :
    stringsReplaceAux [48, 120] [] 0 s = s := by
  induction s with
  | nil => rfl
  | cons c rest ih =>
    have hr : (120 : UInt8) ∉ rest := fun e => h (by simp [e])
    have hp : List.isPrefixOf [48, 120] (c :: rest) = false := by
      cases rest with
      | nil => simp [List.isPrefixOf]
      | cons d rest2 =>
        have hd : d ≠ 120 := fun e => hr (by simp [e])
        simp [List.isPrefixOf]
        intro _ hd2
        exact absurd hd2.symm hd
    simp only [stringsReplaceAux, hp, ih hr]
    simp

theorem replace0x_strip (s : GoString) (h : (120 : UInt8) ∉ s) :
    stringsReplaceAux [48, 120] [] 0 (48 :: 120 :: s) = s := by
  simp [stringsReplaceAux, List.isPrefixOf, replace0x_of_not_mem s h]

/-- A hexadecimal digit is neither `.` nor `x`. -/
theorem hexDigit_ne (c : UInt8) (h : (hexDigit? c).isSome) : c ≠ 46 ∧ c ≠ 120 := by
  constructor <;> rintro rfl <;> exact absurd h (by decide)

/-! ## The identity checks of `handleMiner` -/

/-- A miner segment with more than two pieces is answered with an error and
nothing else happens. -/
theorem handleMiner_too_many_pieces (env : Env) (vars : Vars) (body : Option Request)
    (w : World) (h : 2 < (minerArray vars).length) :
    handleMiner env vars body w =
      { world := w.write (getErrorResponse
          (ascii "Invalid miner & worker provided: " ++ vars.miner)), panic := none } := by
  have hguard : (minerArray vars).length = 0 ∨ (minerArray vars).length > 2 := Or.inr h
  simp only [handleMiner]
  rw [if_pos hguard]

/-- An address that is not 40 bytes long is answered with an error and nothing
else happens. -/
theorem handleMiner_bad_address (env : Env) (vars : Vars) (body : Option Request)
    (w : World) (hlen : (minerArray vars).length ≤ 2) (h : (minerOf vars).length ≠ 40) :
    handleMiner env vars body w =
      { world := w.write (getErrorResponse
          (ascii "Invalid ethereum address provided: 0x" ++ minerOf vars)), panic := none } := by
  have hpos := minerArray_length_pos vars
  have hguard : ¬ ((minerArray vars).length = 0 ∨ (minerArray vars).length > 2) := by omega
  simp only [handleMiner]
  rw [if_neg hguard, if_pos h]

theorem getWorkPackage_bodyReads (env : Env) (d : Int) (w w1 : World) (s : GoString)
    (h : getWorkPackage env d w = .ok (s, w1)) : w1.bodyReads = w.bodyReads := by
  unfold getWorkPackage at h
  split at h
  · cases h; rfl
  · split at h
    · cases h
    · split at h
      · cases h; rfl
      · cases h

theorem handleSubmitWork_bodyReads (env : Env) (miner worker : GoString) (adjusted : Int)
    (t : Request) (w : World) :
    (handleSubmitWork env miner worker adjusted t w).world.bodyReads = w.bodyReads := by
  cases h1 : paramString t.Params 1 with
  | error p => simp only [handleSubmitWork, h1]
  | ok hashNoNonce =>
    cases h0 : paramString t.Params 0 with
    | error p => simp only [handleSubmitWork, h1, h0]
    | ok nonceText =>
      cases hn : strconvParseUint16 (stringsReplace nonceText (ascii "0x") []) with
      | none => simp only [handleSubmitWork, h1, h0, hn]; rfl
      | some nonce =>
        cases h2 : paramString t.Params 2 with
        | error p => simp only [handleSubmitWork, h1, h0, hn, h2]
        | ok mixDigest =>
          have hcases : w.pendingBlockDifficulty = none ∨
              ∃ d, w.pendingBlockDifficulty = some d := by
            cases w.pendingBlockDifficulty <;> simp
          rcases hcases with hd | ⟨d, hd⟩
          · rw [handleSubmitWork_parsed_nil env miner worker adjusted t w nonceText
              hashNoNonce mixDigest nonce h1 h0 hn h2 hd]
            dsimp only
            split <;> rfl
          · rw [handleSubmitWork_parsed env miner worker adjusted t w nonceText
              hashNoNonce mixDigest nonce d h1 h0 hn h2 hd]
            dsimp only
            split
            · split <;> rfl
            · rfl

/-- An accepted miner segment leads to exactly one read of the body. -/
theorem handleMiner_bodyReads (env : Env) (vars : Vars) (body : Option Request) (w : World)
    (hlen : (minerArray vars).length ≤ 2) (haddr : (minerOf vars).length = 40) :
    (handleMiner env vars body w).world.bodyReads = w.bodyReads + 1 := by
  have hpos := minerArray_length_pos vars
  have hguard : ¬ ((minerArray vars).length = 0 ∨ (minerArray vars).length > 2) := by omega
  simp only [handleMiner]
  rw [if_neg hguard]
  simp only [haddr, ne_eq, not_true_eq_false, if_false]
  cases body with
  | none => rfl
  | some t =>
    dsimp only
    split
    · split
      · next s w1 h => simpa [World.write] using getWorkPackage_bodyReads _ _ _ _ _ h
      · rfl
    · split
      · rfl
      · split
        · rw [handleSubmitWork_bodyReads]
        · rfl

/-! ## Hexadecimal output of big integers -/

theorem toNat_ofNat_byte (k : Nat) : (UInt8.ofNat k).toNat = k % 256 := rfl

theorem hexDigit_hexChar (d : Nat) (h : d < 16) : hexDigit? (hexChar d) = some d := by
  interval_cases d <;> rfl

theorem parseHexAux_hexEncode (bs : List UInt8) :
    ∀ acc, parseHexAux acc (hexEncode bs) = some (bytesValue acc bs) := by
  induction bs with
  | nil => intro acc; rfl
  | cons b rest ih =>
    intro acc
    have hb : b.toNat < 256 := b.toNat_lt
    have h1 : b.toNat / 16 < 16 := by omega
    have h2 : b.toNat % 16 < 16 := by omega
    simp only [hexEncode, parseHexAux, hexDigit_hexChar _ h1, hexDigit_hexChar _ h2, ih,
      bytesValue]
    congr 2
    omega

theorem bytesValue_append_pow (bs : List UInt8) :
    ∀ acc, bytesValue acc bs = acc * 256 ^ bs.length + bytesValue 0 bs := by
  induction bs with
  | nil => intro acc; simp [bytesValue]
  | cons b rest ih =>
    intro acc
    simp only [bytesValue, List.length_cons]
    rw [ih (256 * acc + b.toNat), ih (256 * 0 + b.toNat)]
    ring

theorem natBytesAux_value (fuel : Nat) :
    ∀ n acc, n < 2 ^ fuel →
      bytesValue 0 (natBytesAux fuel n acc) = n * 256 ^ acc.length + bytesValue 0 acc := by
  induction fuel with
  | zero =>
    intro n acc h
    have : n = 0 := by simpa using h
    simp [natBytesAux, this]
  | succ fuel ih =>
    intro n acc h
    simp only [natBytesAux]
    split
    · next h0 => simp [h0]
    · have hlt : n / 256 < 2 ^ fuel := by
        have : n / 256 ≤ n / 2 := Nat.div_le_div_left (by norm_num) (by norm_num)
        have : n / 2 < 2 ^ fuel := by
          rw [Nat.div_lt_iff_lt_mul (by norm_num)]
          rw [pow_succ] at h; exact h
        omega
      rw [ih _ _ hlt]
      simp only [bytesValue, List.length_cons]
      rw [bytesValue_append_pow acc (256 * 0 + _)]
      simp only [toNat_ofNat_byte]
      rw [pow_succ, Nat.mod_mod]
      have hn : n = 256 * (n / 256) + n % 256 := (Nat.div_add_mod n 256).symm
      generalize n / 256 = q at hn ⊢
      generalize n % 256 = r at hn ⊢
      subst hn
      ring

theorem bitLenAux_spec (fuel : Nat) : ∀ n, n ≤ fuel → n < 2 ^ bitLenAux fuel n := by
  induction fuel with
  | zero => intro n h; simp [bitLenAux]; omega
  | succ fuel ih =>
    intro n h
    simp only [bitLenAux]
    split
    · next h0 => simp [h0]
    · have := ih (n / 2) (by omega)
      rw [pow_succ]
      omega

theorem lt_two_pow_bitLen (n : Nat) : n < 2 ^ bitLen n := bitLenAux_spec n n le_rfl

theorem bigIntBytes_value (n : Nat) : bytesValue 0 (bigIntBytes (n : Int)) = n := by
  unfold bigIntBytes
  rw [natBytesAux_value _ _ _ (by simpa using lt_two_pow_bitLen n)]
  simp [bytesValue]

theorem ToHex_value (bs : List UInt8) :
    (ToHex bs).take 2 = ascii "0x" ∧
      parseHexAux 0 ((ToHex bs).drop 2) = some (bytesValue 0 bs) := by
  cases bs with
  | nil => exact ⟨rfl, rfl⟩
  | cons b rest =>
    have h : ToHex (b :: rest) = ascii "0x" ++ hexEncode (b :: rest) := rfl
    rw [h]
    refine ⟨rfl, ?_⟩
    have hd : (ascii "0x" ++ hexEncode (b :: rest)).drop 2 = hexEncode (b :: rest) := rfl
    rw [hd, parseHexAux_hexEncode]

theorem ediv_pow256_pos (d : Int) (hd : 0 < d) :
    Int.ediv pow256 d = ((2 ^ 256 / d.toNat : Nat) : Int) := by
  obtain ⟨n, rfl⟩ := Int.eq_ofNat_of_zero_le hd.le
  have : pow256 = ((2 ^ 256 : Nat) : Int) := by norm_num [pow256]
  rw [this]
  simp
  rfl

/-! ## The submit branch and the store -/

/-- The submit branch never looks at the work cache: changing `currWork`
changes nothing but `currWork` in the outcome. -/
theorem handleSubmitWork_currWork (env : Env) (miner worker : GoString) (adjusted : Int)
    (t : Request) (w : World) (cw : Option ResponseArray) :
    handleSubmitWork env miner worker adjusted t { w with currWork := cw } =
      { world := { (handleSubmitWork env miner worker adjusted t w).world with currWork := cw },
        panic := (handleSubmitWork env miner worker adjusted t w).panic } := by
  have hc : ∀ a b n d, candidate { w with currWork := cw } a b n d = candidate w a b n d :=
    fun _ _ _ _ => rfl
  cases h1 : paramString t.Params 1 with
  | error p => simp only [handleSubmitWork, h1]
  | ok hashNoNonce =>
    cases h0 : paramString t.Params 0 with
    | error p => simp only [handleSubmitWork, h1, h0]
    | ok nonceText =>
      cases hn : strconvParseUint16 (stringsReplace nonceText (ascii "0x") []) with
      | none => simp only [handleSubmitWork, h1, h0, hn]; rfl
      | some nonce =>
        cases h2 : paramString t.Params 2 with
        | error p => simp only [handleSubmitWork, h1, h0, hn, h2]
        | ok mixDigest =>
          have hcases : w.pendingBlockDifficulty = none ∨
              ∃ d, w.pendingBlockDifficulty = some d := by
            cases w.pendingBlockDifficulty <;> simp
          rcases hcases with hd | ⟨d, hd⟩
          · rw [handleSubmitWork_parsed_nil env miner worker adjusted t w nonceText
                hashNoNonce mixDigest nonce h1 h0 hn h2 hd,
              handleSubmitWork_parsed_nil env miner worker adjusted t { w with currWork := cw }
                nonceText hashNoNonce mixDigest nonce h1 h0 hn h2 hd]
            simp only [hc]
            cases env.Verify (candidate w hashNoNonce mixDigest nonce (some adjusted)) <;> rfl
          · rw [handleSubmitWork_parsed env miner worker adjusted t w nonceText
                hashNoNonce mixDigest nonce d h1 h0 hn h2 hd,
              handleSubmitWork_parsed env miner worker adjusted t { w with currWork := cw }
                nonceText hashNoNonce mixDigest nonce d h1 h0 hn h2 hd]
            simp only [hc]
            cases env.Verify (candidate w hashNoNonce mixDigest nonce (some adjusted)) <;>
              cases env.Verify (candidate w hashNoNonce mixDigest nonce (some d)) <;> rfl

/-- The world after an accepted share, when the pending-block difficulty is
known: the store has the share, the globals are as before. -/
theorem handleMiner_accepted (env : Env) (vars : Vars) (t : Request)
    (w : World) (nonceText hashNoNonce mixDigest : GoString) (nonce : Nat) (d : Int)
    (hlen : (minerArray vars).length ≤ 2) (haddr : (minerOf vars).length = 40)
    (hmethod : t.Method = ascii "eth_submitWork")
    (h1 : paramString t.Params 1 = .ok hashNoNonce)
    (h0 : paramString t.Params 0 = .ok nonceText)
    (hnonce : strconvParseUint16 (stringsReplace nonceText (ascii "0x") []) = some nonce)
    (h2 : paramString t.Params 2 = .ok mixDigest)
    (hd : w.pendingBlockDifficulty = some d)
    (hv : env.Verify (candidate w hashNoNonce mixDigest nonce
        (some (minerAdjustedDifficulty env vars.difficulty))) = true) :
    (handleMiner env vars (some t) w).world.levelDB =
      levelDBPut w.levelDB mixDigest
        (shareRecord mixDigest (minerOf vars) (minerAdjustedDifficulty env vars.difficulty)
          (workerOf vars)) ∧
    (handleMiner env vars (some t) w).world.pendingBlockDifficulty = some d ∧
    (handleMiner env vars (some t) w).panic = none := by
  have hd0 : ({ w with bodyReads := w.bodyReads + 1 } : World).pendingBlockDifficulty
      = some d := hd
  rw [handleMiner_submit env vars t w hlen haddr hmethod,
    handleSubmitWork_parsed env _ _ _ t _ nonceText hashNoNonce mixDigest nonce d
      h1 h0 hnonce h2 hd0]
  have hv1 : env.Verify (candidate { w with bodyReads := w.bodyReads + 1 } hashNoNonce
      mixDigest nonce (some (minerAdjustedDifficulty env vars.difficulty))) = true := hv
  simp only [hv1, if_true, World.write]
  cases env.Verify (candidate { w with bodyReads := w.bodyReads + 1 } hashNoNonce mixDigest
      nonce (some d))
  · exact ⟨rfl, hd, trivial⟩
  · exact ⟨rfl, hd, trivial⟩

/-- A `Put` under one key leaves the entries of a different key as they
were. -/
theorem levelDBPut_filter_ne (db : List (GoString × GoString)) (key value k : GoString)
    (h : k ≠ key) :
    (levelDBPut db key value).filter (fun e => e.1 = k) = db.filter (fun e => e.1 = k) := by
  have hk : ¬ key = k := fun e => h e.symm
  simp only [levelDBPut, List.filter_cons, hk, decide_False, Bool.false_eq_true, if_false,
    List.filter_filter]
  apply List.filter_congr
  intro e _
  by_cases he : e.1 = k
  · simp [he, h]
  · simp [he]

/-! ## Forwarding, persistence and the miner response -/

/-- C1: for an `eth_submitWork` request that passes address, JSON and nonce
parsing, the upstream call log grows by exactly one `eth_submitWork` call
carrying the params of the request when Check 1 and Check 2 both pass, and
does not change in every other case (a check fails or does not return, or the
third param is not there to be checked). -/
theorem submitWork_forwarded_iff_both_checks (env : Env) (vars : Vars) (t : Request)
    (w : World) (nonceText hashNoNonce : GoString) (nonce : Nat)
    (hlen : (minerArray vars).length ≤ 2) (haddr : (minerOf vars).length = 40)
    (hmethod : t.Method = ascii "eth_submitWork")
    (h1 : paramString t.Params 1 = .ok hashNoNonce)
    (h0 : paramString t.Params 0 = .ok nonceText)
    (hnonce : strconvParseUint16 (stringsReplace nonceText (ascii "0x") []) = some nonce) :
    (∀ mixDigest, paramString t.Params 2 = .ok mixDigest →
      (handleMiner env vars (some t) w).world.upstream =
        if checkPasses env (candidate w hashNoNonce mixDigest nonce
              (some (minerAdjustedDifficulty env vars.difficulty))) = true ∧
            checkPasses env (candidate w hashNoNonce mixDigest nonce
              w.pendingBlockDifficulty) = true
        then w.upstream ++ [(ascii "eth_submitWork", t.Params)]
        else w.upstream) ∧
    (∀ p, paramString t.Params 2 = .error p →
      (handleMiner env vars (some t) w).world.upstream = w.upstream) := by
  refine ⟨fun mixDigest h2 => ?_, fun p h2 => ?_⟩
  · have hcases : w.pendingBlockDifficulty = none ∨
        ∃ d, w.pendingBlockDifficulty = some d := by
      cases w.pendingBlockDifficulty <;> simp
    rw [handleMiner_submit env vars t w hlen haddr hmethod]
    rcases hcases with hd | ⟨d, hd⟩
    · have hd0 : ({ w with bodyReads := w.bodyReads + 1 } : World).pendingBlockDifficulty
          = none := hd
      have hc2 : checkPasses env (candidate w hashNoNonce mixDigest nonce
          w.pendingBlockDifficulty) = false := by rw [hd]; rfl
      rw [handleSubmitWork_parsed_nil env _ _ _ t _ nonceText hashNoNonce mixDigest nonce
        h1 h0 hnonce h2 hd0]
      simp only [hc2, Bool.false_eq_true, and_false, if_false]
      split <;> rfl
    · have hd0 : ({ w with bodyReads := w.bodyReads + 1 } : World).pendingBlockDifficulty
          = some d := hd
      have hc1 : checkPasses env (candidate w hashNoNonce mixDigest nonce
          (some (minerAdjustedDifficulty env vars.difficulty))) =
          env.Verify (candidate w hashNoNonce mixDigest nonce
            (some (minerAdjustedDifficulty env vars.difficulty))) := rfl
      have hc2 : checkPasses env (candidate w hashNoNonce mixDigest nonce
          w.pendingBlockDifficulty) =
          env.Verify (candidate w hashNoNonce mixDigest nonce (some d)) := by rw [hd]; rfl
      have hb : ∀ a b n x, candidate { w with bodyReads := w.bodyReads + 1 } a b n x
          = candidate w a b n x := fun _ _ _ _ => rfl
      rw [handleSubmitWork_parsed env _ _ _ t _ nonceText hashNoNonce mixDigest nonce d
        h1 h0 hnonce h2 hd0]
      simp only [hc1, hc2, hb]
      cases env.Verify (candidate w hashNoNonce mixDigest nonce
          (some (minerAdjustedDifficulty env vars.difficulty))) <;>
        cases env.Verify (candidate w hashNoNonce mixDigest nonce (some d)) <;>
        simp [World.write, submitWork]
  · rw [handleMiner_submit env vars t w hlen haddr hmethod,
      handleSubmitWork_param2_panic env _ _ _ t _ nonceText hashNoNonce nonce p h1 h0 hnonce h2]

/-- Witness of C1: a block-level solution is forwarded once, unmodified. -/
theorem submitWork_forwarded_iff_both_checks_witness :
    (handleMiner (sampleEnv true true) sampleVars (some sampleSubmit) sampleWorld).world.upstream
      = [(ascii "eth_submitWork", sampleSubmit.Params)] :=
  ((submitWork_forwarded_iff_both_checks (sampleEnv true true) sampleVars sampleSubmit
      sampleWorld (ascii "0x00000000000004d2")
      (ascii "0x1111111111111111111111111111111111111111111111111111111111111111") 1234
      (by decide) (by decide) rfl rfl rfl (by decide)).1
    (ascii "0xabcdef0000000000000000000000000000000000000000000000000000000001") rfl).trans
    (by rfl)

/-- C2 (what the code does): for an `eth_submitWork` request that passes
address, JSON and nonce parsing and passes Check 1, the share is stored as the
claim says when the pending-block difficulty is known: the store then has
exactly one entry under the submitted mix digest, with the record
`MIX:..|MINER:"..|DIFFICULTY:..|WORKER:..`, and the entries under every other
key are unchanged.  When the pending-block difficulty is still nil, Check 2
dereferences it: the handler panics before the store write, and the store and
the response are as they were. -/
theorem accepted_share_lost_without_network_state (env : Env) (vars : Vars) (t : Request)
    (w : World) (nonceText hashNoNonce mixDigest : GoString) (nonce : Nat)
    (hlen : (minerArray vars).length ≤ 2) (haddr : (minerOf vars).length = 40)
    (hmethod : t.Method = ascii "eth_submitWork")
    (h1 : paramString t.Params 1 = .ok hashNoNonce)
    (h0 : paramString t.Params 0 = .ok nonceText)
    (hnonce : strconvParseUint16 (stringsReplace nonceText (ascii "0x") []) = some nonce)
    (h2 : paramString t.Params 2 = .ok mixDigest)
    (hv : env.Verify (candidate w hashNoNonce mixDigest nonce
        (some (minerAdjustedDifficulty env vars.difficulty))) = true) :
    (∀ d, w.pendingBlockDifficulty = some d →
      (handleMiner env vars (some t) w).world.levelDB.filter (fun e => e.1 = mixDigest) =
          [(mixDigest,
            ascii "MIX:" ++ mixDigest ++ ascii "|MINER:\"" ++ minerOf vars
              ++ ascii "|DIFFICULTY:"
              ++ strconvFormatInt (minerAdjustedDifficulty env vars.difficulty)
              ++ ascii "|WORKER:" ++ workerOf vars)] ∧
        (handleMiner env vars (some t) w).world.levelDB.filter (fun e => e.1 ≠ mixDigest) =
          w.levelDB.filter (fun e => e.1 ≠ mixDigest)) ∧
    (w.pendingBlockDifficulty = none →
      (handleMiner env vars (some t) w).panic = some Panic.nilDereference ∧
      (handleMiner env vars (some t) w).world.levelDB = w.levelDB ∧
      (handleMiner env vars (some t) w).world.rw = w.rw ∧
      (handleMiner env vars (some t) w).world.upstream = w.upstream) := by
  refine ⟨fun d hd => ?_, fun hd => ?_⟩
  · rw [(handleMiner_accepted env vars t w nonceText hashNoNonce mixDigest nonce d hlen haddr
      hmethod h1 h0 hnonce h2 hd hv).1]
    exact ⟨levelDBPut_filter_key _ _ _, levelDBPut_filter_other _ _ _⟩
  · have hd0 : ({ w with bodyReads := w.bodyReads + 1 } : World).pendingBlockDifficulty
        = none := hd
    have hv1 : env.Verify (candidate { w with bodyReads := w.bodyReads + 1 } hashNoNonce
        mixDigest nonce (some (minerAdjustedDifficulty env vars.difficulty))) = true := hv
    rw [handleMiner_submit env vars t w hlen haddr hmethod,
      handleSubmitWork_parsed_nil env _ _ _ t _ nonceText hashNoNonce mixDigest nonce
        h1 h0 hnonce h2 hd0]
    dsimp only
    rw [if_pos hv1]
    exact ⟨rfl, rfl, rfl, rfl⟩

/-- Witness of C2: with the pending-block difficulty known, a share that is no
block replaces the older entry of its mix digest and leaves the other entry
alone; before the difficulty is fetched, the same share makes the handler
panic and leaves the store empty. -/
theorem accepted_share_lost_without_network_state_witness :
    ((handleMiner (sampleEnv true false) sampleVars (some sampleSubmit)
        sampleWorldStored).world.levelDB.filter (fun e => e.1 = sampleMix) =
      [(sampleMix,
        ascii "MIX:0xabcdef0000000000000000000000000000000000000000000000000000000001|MINER:\"52bc44d5378309ee2abf1539bf71de1b7d7be3b5|DIFFICULTY:500000000|WORKER:rig1")] ∧
    (handleMiner (sampleEnv true false) sampleVars (some sampleSubmit)
        sampleWorldStored).world.levelDB.filter (fun e => e.1 ≠ sampleMix) =
      [(ascii "0x02", ascii "MIX:0x02")]) ∧
    ((handleMiner (sampleEnv true false) sampleVars (some sampleSubmit)
        sampleWorldCold).panic = some Panic.nilDereference ∧
    (handleMiner (sampleEnv true false) sampleVars (some sampleSubmit)
        sampleWorldCold).world.levelDB = [] ∧
    (handleMiner (sampleEnv true false) sampleVars (some sampleSubmit)
        sampleWorldCold).world.rw = [] ∧
    (handleMiner (sampleEnv true false) sampleVars (some sampleSubmit)
        sampleWorldCold).world.upstream = []) :=
  ⟨(accepted_share_lost_without_network_state (sampleEnv true false) sampleVars sampleSubmit
      sampleWorldStored (ascii "0x00000000000004d2")
      (ascii "0x1111111111111111111111111111111111111111111111111111111111111111") sampleMix
      1234 (by decide) (by decide) rfl rfl rfl (by decide) rfl (by decide)).1 17179869184 rfl,
    (accepted_share_lost_without_network_state (sampleEnv true false) sampleVars sampleSubmit
      sampleWorldCold (ascii "0x00000000000004d2")
      (ascii "0x1111111111111111111111111111111111111111111111111111111111111111") sampleMix
      1234 (by decide) (by decide) rfl rfl rfl (by decide) rfl (by decide)).2 rfl⟩

/-- C3 (what the code does): for every well-formed `eth_submitWork` submission
that fails Check 1, `handleMiner` writes the invalid-share error response and
then also the success acknowledgment `okRequest`: the response body is the two
in a row, not the error response alone. -/
theorem invalid_share_response_followed_by_ok (env : Env) (vars : Vars) (t : Request)
    (w : World) (nonceText hashNoNonce mixDigest : GoString) (nonce : Nat)
    (hlen : (minerArray vars).length ≤ 2) (haddr : (minerOf vars).length = 40)
    (hmethod : t.Method = ascii "eth_submitWork")
    (h1 : paramString t.Params 1 = .ok hashNoNonce)
    (h0 : paramString t.Params 0 = .ok nonceText)
    (hnonce : strconvParseUint16 (stringsReplace nonceText (ascii "0x") []) = some nonce)
    (h2 : paramString t.Params 2 = .ok mixDigest)
    (hfail : env.Verify (candidate w hashNoNonce mixDigest nonce
        (some (minerAdjustedDifficulty env vars.difficulty))) = false) :
    (handleMiner env vars (some t) w).world.rw =
      w.rw ++ [getErrorResponse (ascii "Provided PoW solution is invalid!"), okRequest] := by
  have hv1 : env.Verify (candidate { w with bodyReads := w.bodyReads + 1 } hashNoNonce
      mixDigest nonce (some (minerAdjustedDifficulty env vars.difficulty))) = false := hfail
  rw [handleMiner_submit env vars t w hlen haddr hmethod]
  simp only [handleSubmitWork, h1, h0, hnonce, h2, hasherVerify_some, hv1]
  simp [World.write]

/-- Witness of C3: the body written for a rejected share ends with the success
acknowledgment. -/
theorem invalid_share_response_followed_by_ok_witness :
    (handleMiner (sampleEnv false false) sampleVars (some sampleSubmit) sampleWorld).world.rw =
      [getErrorResponse (ascii "Provided PoW solution is invalid!"), okRequest] :=
  invalid_share_response_followed_by_ok (sampleEnv false false) sampleVars sampleSubmit
    sampleWorld (ascii "0x00000000000004d2")
    (ascii "0x1111111111111111111111111111111111111111111111111111111111111111") sampleMix 1234
    (by decide) (by decide) rfl rfl rfl (by decide) rfl (by decide)

/-- C9 (what the code does): `handleMiner` panics on client input.  An
`eth_submitWork` request with no params dies on `t.Params[1]` (index out of
range), one whose first param is a number dies on the type assertion, one
with only two params dies on `t.Params[2]` after the nonce was parsed, and an
`eth_getWork` request with the hint `0` dies on the division by zero in
`getWorkPackage`; in each case nothing is written to the miner. -/
theorem handleMiner_panics_on_client_input :
    ((handleMiner (sampleEnv true true) sampleVars
        (some { sampleSubmit with Params := [] }) sampleWorld).panic
        = some Panic.indexOutOfRange ∧
      (handleMiner (sampleEnv true true) sampleVars
        (some { sampleSubmit with Params := [] }) sampleWorld).world.rw = []) ∧
    ((handleMiner (sampleEnv true true) sampleVars
        (some { sampleSubmit with
          Params := [.number (.finite false 1 0), .string (ascii "0x11"), .string sampleMix] })
        sampleWorld).panic = some Panic.typeAssertion ∧
      (handleMiner (sampleEnv true true) sampleVars
        (some { sampleSubmit with
          Params := [.number (.finite false 1 0), .string (ascii "0x11"), .string sampleMix] })
        sampleWorld).world.rw = []) ∧
    ((handleMiner (sampleEnv true true) sampleVars
        (some { sampleSubmit with Params := [.string (ascii "0x1"), .string (ascii "0x11")] })
        sampleWorld).panic = some Panic.indexOutOfRange ∧
      (handleMiner (sampleEnv true true) sampleVars
        (some { sampleSubmit with Params := [.string (ascii "0x1"), .string (ascii "0x11")] })
        sampleWorld).world.rw = []) ∧
    ((handleMiner (sampleEnv true true) { sampleVars with difficulty := ascii "0" }
        (some sampleGetWork) sampleWorld).panic = some Panic.divisionByZero ∧
      (handleMiner (sampleEnv true true) { sampleVars with difficulty := ascii "0" }
        (some sampleGetWork) sampleWorld).world.rw = []) := by
  refine ⟨⟨?_, ?_⟩, ⟨?_, ?_⟩, ⟨?_, ?_⟩, ⟨?_, ?_⟩⟩ <;> rfl

/-- C10 (what the code does): serving a work request overwrites the third
element of the cached package.  Before the call the cache holds the target
fetched from the node; after `getWorkPackage(500000000)`, and likewise after
a whole `eth_getWork` request with the hint `5.0`, it holds the target of
that miner, `2^256 / 500000000`. -/
theorem getWorkPackage_overwrites_cached_target :
    cachedTarget sampleWorld = some (ascii "0x0fff") ∧
    (match getWorkPackage (sampleEnv true true) 500000000 sampleWorld with
      | .ok (_, w1) => cachedTarget w1
      | .error _ => none) =
      some (ascii "0x089705f4136b4a59731680a88f8953030fdd7645e011abac9f387295d2") ∧
    cachedTarget (handleMiner (sampleEnv true true) sampleVars (some sampleGetWork)
        sampleWorld).world =
      some (ascii "0x089705f4136b4a59731680a88f8953030fdd7645e011abac9f387295d2") := by
  refine ⟨?_, ?_, ?_⟩ <;> rfl

/-! ## Difficulty translation -/

/-- C5: difficulty translation in `eth_getWork`.  A hint that parses to 5.0,
and a hint that does not parse (replaced by the default 5), both give the
miner difficulty 500000000.  For every positive difficulty `d` and every
cached package with at least three result elements, `getWorkPackage d`
returns the marshalled response with the cached id and jsonrpc and a result
list that agrees with the cached one everywhere except at index 2, where it
holds the string `0x` followed by big-endian hex digits whose value is
`2^256 / d` rounded down.  With no cached package it returns the
`Current work unavailable` error response. -/
theorem getWork_difficulty_translation (env : Env) :
    (∀ hint, env.ParseFloat hint = some (Float64.finite false 5 0) →
      minerAdjustedDifficulty env hint = 500000000) ∧
    (∀ hint, env.ParseFloat hint = none → minerAdjustedDifficulty env hint = 500000000) ∧
    (∀ (d : Int) (w : World) (cw : ResponseArray),
      0 < d → w.currWork = some cw → 3 ≤ cw.Result.length →
      ∃ (target : GoString) (r : List JsonValue) (w1 : World),
        getWorkPackage env d w =
          .ok (env.Marshal { Id := cw.Id, Jsonrpc := cw.Jsonrpc, Result := r }, w1) ∧
        r.length = cw.Result.length ∧
        (∀ i, i ≠ 2 → r[i]? = cw.Result[i]?) ∧
        r[2]? = some (.string target) ∧
        target.take 2 = ascii "0x" ∧
        parseHexAux 0 (target.drop 2) = some (2 ^ 256 / d.toNat)) ∧
    (∀ (d : Int) (w : World), w.currWork = none →
      getWorkPackage env d w =
        .ok (getErrorResponse (ascii "Current work unavailable"), w)) := by
  refine ⟨fun hint h => ?_, fun hint h => ?_, fun d w cw hd hcw hlen => ?_, fun d w h => ?_⟩
  · simp only [minerAdjustedDifficulty, h]
    rfl
  · simp only [minerAdjustedDifficulty, h]
    rfl
  · have hd0 : d ≠ 0 := ne_of_gt hd
    have hlen2 : 2 < cw.Result.length := by omega
    refine ⟨ToHex (bigIntBytes (Int.ediv pow256 d)),
      cw.Result.set 2 (.string (ToHex (bigIntBytes (Int.ediv pow256 d)))),
      { w with currWork := some { cw with
          Result := cw.Result.set 2 (.string (ToHex (bigIntBytes (Int.ediv pow256 d)))) } },
      ?_, ?_, ?_, ?_, ?_, ?_⟩
    · simp only [getWorkPackage, hcw, hd0, if_false, hlen2, if_true]
    · simp
    · intro i hi
      exact List.getElem?_set_ne (Ne.symm hi)
    · simp [List.getElem?_set, hlen2]
    · exact (ToHex_value _).1
    · rw [(ToHex_value _).2, ediv_pow256_pos d hd, bigIntBytes_value]
  · simp only [getWorkPackage, h]

/-- Witness of C5: the hint `5.0`, an unparsable hint, and the package served
at difficulty 500000000 from the sample cache. -/
theorem getWork_difficulty_translation_witness :
    minerAdjustedDifficulty (sampleEnv true true) (ascii "5.0") = 500000000 ∧
    minerAdjustedDifficulty (sampleEnv true true) (ascii "fast") = 500000000 ∧
    (∃ (target : GoString) (r : List JsonValue) (w1 : World),
      getWorkPackage (sampleEnv true true) 500000000 sampleWorld =
        .ok (sampleMarshal { Id := 1, Jsonrpc := ascii "2.0", Result := r }, w1) ∧
      r.length = 3 ∧
      (∀ i, i ≠ 2 → r[i]? =
        [JsonValue.string (ascii "0xaa11"), .string (ascii "0xbb22"),
          .string (ascii "0x0fff")][i]?) ∧
      r[2]? = some (.string target) ∧
      target.take 2 = ascii "0x" ∧
      parseHexAux 0 (target.drop 2) = some (2 ^ 256 / 500000000)) :=
  ⟨(getWork_difficulty_translation (sampleEnv true true)).1 (ascii "5.0") rfl,
    (getWork_difficulty_translation (sampleEnv true true)).2.1 (ascii "fast") rfl,
    (getWork_difficulty_translation (sampleEnv true true)).2.2.1 500000000 sampleWorld
      { Id := 1, Jsonrpc := ascii "2.0",
        Result := [.string (ascii "0xaa11"), .string (ascii "0xbb22"), .string (ascii "0x0fff")] }
      (by decide) rfl (by decide)⟩

/-! ## Miner identity -/

/-- C7 as stated fails: a segment of forty `z`, and a segment of forty hex
digits followed by `0x`, are no valid addresses for the specification, yet
`handleMiner` reads the body, runs both checks, stores the share and forwards
the submission. -/
theorem malformed_address_accepted :
    (specValidAddress (addressPart (ascii "zzzzzzzzzzzzzzzzzzzzzzzzzzzzzzzzzzzzzzzz")) = false ∧
      (handleMiner (sampleEnv true true)
        { miner := ascii "zzzzzzzzzzzzzzzzzzzzzzzzzzzzzzzzzzzzzzzz", difficulty := ascii "5.0" }
        (some sampleSubmit) sampleWorld).world.bodyReads = 1 ∧
      (handleMiner (sampleEnv true true)
        { miner := ascii "zzzzzzzzzzzzzzzzzzzzzzzzzzzzzzzzzzzzzzzz", difficulty := ascii "5.0" }
        (some sampleSubmit) sampleWorld).world.verified.length = 2 ∧
      (handleMiner (sampleEnv true true)
        { miner := ascii "zzzzzzzzzzzzzzzzzzzzzzzzzzzzzzzzzzzzzzzz", difficulty := ascii "5.0" }
        (some sampleSubmit) sampleWorld).world.levelDB.length = 1 ∧
      (handleMiner (sampleEnv true true)
        { miner := ascii "zzzzzzzzzzzzzzzzzzzzzzzzzzzzzzzzzzzzzzzz", difficulty := ascii "5.0" }
        (some sampleSubmit) sampleWorld).world.upstream.length = 1 ∧
      (handleMiner (sampleEnv true true)
        { miner := ascii "zzzzzzzzzzzzzzzzzzzzzzzzzzzzzzzzzzzzzzzz", difficulty := ascii "5.0" }
        (some sampleSubmit) sampleWorld).world.rw = [okRequest]) ∧
    (specValidAddress (addressPart (sampleAddress ++ ascii "0x")) = false ∧
      (handleMiner (sampleEnv true true)
        { miner := sampleAddress ++ ascii "0x", difficulty := ascii "5.0" }
        (some sampleSubmit) sampleWorld).world.bodyReads = 1 ∧
      (handleMiner (sampleEnv true true)
        { miner := sampleAddress ++ ascii "0x", difficulty := ascii "5.0" }
        (some sampleSubmit) sampleWorld).world.levelDB.length = 1 ∧
      (handleMiner (sampleEnv true true)
        { miner := sampleAddress ++ ascii "0x", difficulty := ascii "5.0" }
        (some sampleSubmit) sampleWorld).world.rw = [okRequest]) := by
  refine ⟨⟨?_, ?_, ?_, ?_, ?_, ?_⟩, ⟨?_, ?_, ?_, ?_⟩⟩ <;> rfl

/-- C7 amended: a miner segment with more than one `.`, or whose part before
the first `.` is not exactly 40 bytes long once every occurrence of `0x` is
removed, is answered with one error response; the body is not read, no
proof-of-work check runs, nothing is stored and nothing is forwarded. -/
theorem malformed_identity_rejected (env : Env) (vars : Vars) (body : Option Request)
    (w : World)
    (h : 2 ≤ vars.miner.count 46 ∨
      (stringsReplace (addressPart vars.miner) (ascii "0x") []).length ≠ 40) :
    (handleMiner env vars body w).panic = none ∧
    (∃ msg, (handleMiner env vars body w).world.rw = w.rw ++ [getErrorResponse msg]) ∧
    (handleMiner env vars body w).world.bodyReads = w.bodyReads ∧
    (handleMiner env vars body w).world.verified = w.verified ∧
    (handleMiner env vars body w).world.levelDB = w.levelDB ∧
    (handleMiner env vars body w).world.upstream = w.upstream := by
  have hl : (minerArray vars).length = vars.miner.count 46 + 1 := splitDot_length _
  by_cases hc : 2 ≤ vars.miner.count 46
  · rw [handleMiner_too_many_pieces env vars body w (by omega)]
    exact ⟨rfl, ⟨_, rfl⟩, rfl, rfl, rfl, rfl⟩
  · have hm : (minerOf vars).length ≠ 40 := by
      have h2 := h.resolve_left hc
      unfold minerOf minerArray
      rw [splitDot_head]
      exact h2
    rw [handleMiner_bad_address env vars body w (by omega) hm]
    exact ⟨rfl, ⟨_, rfl⟩, rfl, rfl, rfl, rfl⟩

/-- Witness of C7 amended: a 39-digit address. -/
theorem malformed_identity_rejected_witness :
    (handleMiner (sampleEnv true true)
        { miner := ascii "0x52bc44d5378309ee2abf1539bf71de1b7d7be3b.rig1", difficulty := ascii "5.0" }
        (some sampleSubmit) sampleWorld).panic = none ∧
    (∃ msg, (handleMiner (sampleEnv true true)
        { miner := ascii "0x52bc44d5378309ee2abf1539bf71de1b7d7be3b.rig1", difficulty := ascii "5.0" }
        (some sampleSubmit) sampleWorld).world.rw = sampleWorld.rw ++ [getErrorResponse msg]) ∧
    (handleMiner (sampleEnv true true)
        { miner := ascii "0x52bc44d5378309ee2abf1539bf71de1b7d7be3b.rig1", difficulty := ascii "5.0" }
        (some sampleSubmit) sampleWorld).world.bodyReads = sampleWorld.bodyReads ∧
    (handleMiner (sampleEnv true true)
        { miner := ascii "0x52bc44d5378309ee2abf1539bf71de1b7d7be3b.rig1", difficulty := ascii "5.0" }
        (some sampleSubmit) sampleWorld).world.verified = sampleWorld.verified ∧
    (handleMiner (sampleEnv true true)
        { miner := ascii "0x52bc44d5378309ee2abf1539bf71de1b7d7be3b.rig1", difficulty := ascii "5.0" }
        (some sampleSubmit) sampleWorld).world.levelDB = sampleWorld.levelDB ∧
    (handleMiner (sampleEnv true true)
        { miner := ascii "0x52bc44d5378309ee2abf1539bf71de1b7d7be3b.rig1", difficulty := ascii "5.0" }
        (some sampleSubmit) sampleWorld).world.upstream = sampleWorld.upstream :=
  malformed_identity_rejected (sampleEnv true true)
    { miner := ascii "0x52bc44d5378309ee2abf1539bf71de1b7d7be3b.rig1", difficulty := ascii "5.0" }
    (some sampleSubmit) sampleWorld (Or.inr (by decide))

/-- C8 as stated fails: with the valid address `0x52bc..b5` and the worker
suffix `rig.1` the segment is split into three pieces and `handleMiner`
answers `Invalid miner & worker provided` without reading the body. -/
theorem dotted_worker_rejected :
    specValidAddress (ascii "0x" ++ sampleAddress) = true ∧
    (handleMiner (sampleEnv true true)
        { miner := ascii "0x" ++ sampleAddress ++ ascii "." ++ ascii "rig.1",
          difficulty := ascii "5.0" }
        (some sampleSubmit) sampleWorld).world.rw =
      [getErrorResponse (ascii "Invalid miner & worker provided: "
        ++ (ascii "0x" ++ sampleAddress ++ ascii "." ++ ascii "rig.1"))] ∧
    (handleMiner (sampleEnv true true)
        { miner := ascii "0x" ++ sampleAddress ++ ascii "." ++ ascii "rig.1",
          difficulty := ascii "5.0" }
        (some sampleSubmit) sampleWorld).world.bodyReads = 0 := by
  refine ⟨?_, ?_, ?_⟩ <;> rfl

/-- C8 amended: for every address `a` of exactly 40 hexadecimal characters,
written with or without a leading `0x`, and every worker suffix `w` that
contains no `.`, the segment `a.w` passes the identity parsing of
`handleMiner` (the body is read) with miner `a` without the `0x` and worker
`w`; the segment `a` alone passes with worker `default`. -/
theorem identity_parsed (a w : GoString) (ha : a.length = 40)
    (hhex : ∀ c ∈ a, (hexDigit? c).isSome) (hw : (46 : UInt8) ∉ w) :
    (∀ pfx : GoString, pfx = [] ∨ pfx = ascii "0x" → ∀ difficulty : GoString,
      minerOf { miner := pfx ++ a ++ ascii "." ++ w, difficulty := difficulty } = a ∧
      workerOf { miner := pfx ++ a ++ ascii "." ++ w, difficulty := difficulty } = w ∧
      ∀ (env : Env) (body : Option Request) (w0 : World),
        (handleMiner env { miner := pfx ++ a ++ ascii "." ++ w, difficulty := difficulty }
          body w0).world.bodyReads = w0.bodyReads + 1) ∧
    (∀ pfx : GoString, pfx = [] ∨ pfx = ascii "0x" → ∀ difficulty : GoString,
      minerOf { miner := pfx ++ a, difficulty := difficulty } = a ∧
      workerOf { miner := pfx ++ a, difficulty := difficulty } = ascii "default" ∧
      ∀ (env : Env) (body : Option Request) (w0 : World),
        (handleMiner env { miner := pfx ++ a, difficulty := difficulty }
          body w0).world.bodyReads = w0.bodyReads + 1) := by
  have hdot : (46 : UInt8) ∉ a := fun h => (hexDigit_ne _ (hhex _ h)).1 rfl
  have hx : (120 : UInt8) ∉ a := fun h => (hexDigit_ne _ (hhex _ h)).2 rfl
  have hpfx : ∀ pfx : GoString, pfx = [] ∨ pfx = ascii "0x" →
      (46 : UInt8) ∉ pfx ++ a ∧ stringsReplace (pfx ++ a) (ascii "0x") [] = a := by
    intro pfx hp
    rcases hp with rfl | rfl
    · exact ⟨by simpa using hdot, replace0x_of_not_mem a hx⟩
    · refine ⟨?_, replace0x_strip a hx⟩
      rw [ascii_0x]
      simp only [List.cons_append, List.nil_append, List.mem_cons, not_or]
      exact ⟨by decide, by decide, hdot⟩
  refine ⟨fun pfx hp difficulty => ?_, fun pfx hp difficulty => ?_⟩
  · obtain ⟨hnd, hrep⟩ := hpfx pfx hp
    have hsplit : minerArray { miner := pfx ++ a ++ ascii "." ++ w, difficulty := difficulty }
        = [pfx ++ a, w] := by
      unfold minerArray stringsSplit
      rw [ascii_dot, List.append_assoc]
      show stringsSplitAux [46] 0 ((pfx ++ a) ++ 46 :: w) = _
      rw [splitDot_append _ _ hnd, splitDot_of_not_mem _ hw]
    have hm : minerOf { miner := pfx ++ a ++ ascii "." ++ w, difficulty := difficulty } = a := by
      unfold minerOf
      rw [hsplit]
      exact hrep
    have hwk : workerOf { miner := pfx ++ a ++ ascii "." ++ w, difficulty := difficulty } = w := by
      unfold workerOf
      rw [hsplit]
      rfl
    refine ⟨hm, hwk, fun env body w0 => ?_⟩
    exact handleMiner_bodyReads env _ body w0 (by rw [hsplit]; simp) (by rw [hm]; exact ha)
  · obtain ⟨hnd, hrep⟩ := hpfx pfx hp
    have hsplit : minerArray { miner := pfx ++ a, difficulty := difficulty } = [pfx ++ a] := by
      unfold minerArray stringsSplit
      rw [ascii_dot]
      exact splitDot_of_not_mem _ hnd
    have hm : minerOf { miner := pfx ++ a, difficulty := difficulty } = a := by
      unfold minerOf
      rw [hsplit]
      exact hrep
    have hwk : workerOf { miner := pfx ++ a, difficulty := difficulty } = ascii "default" := by
      unfold workerOf
      rw [hsplit]
      rfl
    refine ⟨hm, hwk, fun env body w0 => ?_⟩
    exact handleMiner_bodyReads env _ body w0 (by rw [hsplit]; simp) (by rw [hm]; exact ha)

/-- Witness of C8 amended: the sample address with the worker `rig1`. -/
theorem identity_parsed_witness :
    minerOf { miner := ascii "0x" ++ sampleAddress ++ ascii "." ++ ascii "rig1",
              difficulty := ascii "5.0" } = sampleAddress ∧
    workerOf { miner := ascii "0x" ++ sampleAddress ++ ascii "." ++ ascii "rig1",
               difficulty := ascii "5.0" } = ascii "rig1" ∧
    workerOf { miner := [] ++ sampleAddress, difficulty := ascii "5.0" } = ascii "default" :=
  ⟨((identity_parsed sampleAddress (ascii "rig1") (by decide) (by decide) (by decide)).1
      (ascii "0x") (Or.inr rfl) (ascii "5.0")).1,
    ((identity_parsed sampleAddress (ascii "rig1") (by decide) (by decide) (by decide)).1
      (ascii "0x") (Or.inr rfl) (ascii "5.0")).2.1,
    ((identity_parsed sampleAddress (ascii "rig1") (by decide) (by decide) (by decide)).2
      [] (Or.inl rfl) (ascii "5.0")).2.1⟩

/-! ## The share store key -/

/-- C4 as stated fails: three spellings of one mix digest (lower case, upper
case, without `0x`) give the same hash to the proof-of-work check, and after
the three accepted submissions the store holds three entries, one per
spelling. -/
theorem spellings_of_one_digest_stored_apart :
    HexToHash sampleMixUpper = HexToHash sampleMix ∧
    HexToHash sampleMixBare = HexToHash sampleMix ∧
    ((handleMiner (sampleEnv true false) sampleVars (some (sampleSubmitAs sampleMixBare))
        (handleMiner (sampleEnv true false) sampleVars (some (sampleSubmitAs sampleMixUpper))
          (handleMiner (sampleEnv true false) sampleVars (some sampleSubmit)
            sampleWorld).world).world).world.levelDB.map Prod.fst) =
      [sampleMixBare, sampleMixUpper, sampleMix] := by
  refine ⟨?_, ?_, ?_⟩ <;> rfl

/-- C4 amended: the store key is the text of the mix-digest parameter.  For
two submissions handled one after the other while the pending-block
difficulty is known, both passing Check 1: when they carry the same
mix-digest string, the store holds one entry under it after both, the record
of the second; when the strings differ, each has its own entry. -/
theorem store_keyed_by_mix_text (env : Env) (vars1 vars2 : Vars) (t1 t2 : Request)
    (w : World) (nonceText1 hash1 mix1 nonceText2 hash2 mix2 : GoString) (nonce1 nonce2 : Nat)
    (d : Int) (hd : w.pendingBlockDifficulty = some d)
    (hlen1 : (minerArray vars1).length ≤ 2) (haddr1 : (minerOf vars1).length = 40)
    (hmethod1 : t1.Method = ascii "eth_submitWork")
    (h11 : paramString t1.Params 1 = .ok hash1)
    (h10 : paramString t1.Params 0 = .ok nonceText1)
    (hnonce1 : strconvParseUint16 (stringsReplace nonceText1 (ascii "0x") []) = some nonce1)
    (h12 : paramString t1.Params 2 = .ok mix1)
    (hv1 : env.Verify (candidate w hash1 mix1 nonce1
        (some (minerAdjustedDifficulty env vars1.difficulty))) = true)
    (hlen2 : (minerArray vars2).length ≤ 2) (haddr2 : (minerOf vars2).length = 40)
    (hmethod2 : t2.Method = ascii "eth_submitWork")
    (h21 : paramString t2.Params 1 = .ok hash2)
    (h20 : paramString t2.Params 0 = .ok nonceText2)
    (hnonce2 : strconvParseUint16 (stringsReplace nonceText2 (ascii "0x") []) = some nonce2)
    (h22 : paramString t2.Params 2 = .ok mix2)
    (hv2 : env.Verify (candidate (handleMiner env vars1 (some t1) w).world hash2 mix2 nonce2
        (some (minerAdjustedDifficulty env vars2.difficulty))) = true) :
    (handleMiner env vars1 (some t1) w).panic = none ∧
    (handleMiner env vars2 (some t2) (handleMiner env vars1 (some t1) w).world).panic = none ∧
    (mix1 = mix2 →
      (handleMiner env vars2 (some t2)
          (handleMiner env vars1 (some t1) w).world).world.levelDB.filter
            (fun e => e.1 = mix1) =
        [(mix1, shareRecord mix2 (minerOf vars2)
          (minerAdjustedDifficulty env vars2.difficulty) (workerOf vars2))]) ∧
    (mix1 ≠ mix2 →
      (handleMiner env vars2 (some t2)
          (handleMiner env vars1 (some t1) w).world).world.levelDB.filter
            (fun e => e.1 = mix1) =
        [(mix1, shareRecord mix1 (minerOf vars1)
          (minerAdjustedDifficulty env vars1.difficulty) (workerOf vars1))] ∧
      (handleMiner env vars2 (some t2)
          (handleMiner env vars1 (some t1) w).world).world.levelDB.filter
            (fun e => e.1 = mix2) =
        [(mix2, shareRecord mix2 (minerOf vars2)
          (minerAdjustedDifficulty env vars2.difficulty) (workerOf vars2))]) := by
  obtain ⟨hdb1, hd1, hp1⟩ := handleMiner_accepted env vars1 t1 w nonceText1 hash1 mix1 nonce1 d
    hlen1 haddr1 hmethod1 h11 h10 hnonce1 h12 hd hv1
  obtain ⟨hdb2, _, hp2⟩ := handleMiner_accepted env vars2 t2 _ nonceText2 hash2 mix2 nonce2 d
    hlen2 haddr2 hmethod2 h21 h20 hnonce2 h22 hd1 hv2
  rw [hdb2, hdb1]
  refine ⟨hp1, hp2, fun h => ?_, fun h => ⟨?_, ?_⟩⟩
  · subst h
    exact levelDBPut_filter_key _ _ _
  · rw [levelDBPut_filter_ne _ _ _ _ h]
    exact levelDBPut_filter_key _ _ _
  · exact levelDBPut_filter_key _ _ _

/-- Witness of C4 amended: the sample submission handled twice leaves one
entry under its mix-digest string. -/
theorem store_keyed_by_mix_text_witness :
    (handleMiner (sampleEnv true false) sampleVars (some sampleSubmit)
        (handleMiner (sampleEnv true false) sampleVars (some sampleSubmit)
          sampleWorld).world).world.levelDB.filter (fun e => e.1 = sampleMix) =
      [(sampleMix, shareRecord sampleMix sampleAddress 500000000 (ascii "rig1"))] :=
  (store_keyed_by_mix_text (sampleEnv true false) sampleVars sampleVars sampleSubmit
    sampleSubmit sampleWorld (ascii "0x00000000000004d2")
    (ascii "0x1111111111111111111111111111111111111111111111111111111111111111") sampleMix
    (ascii "0x00000000000004d2")
    (ascii "0x1111111111111111111111111111111111111111111111111111111111111111") sampleMix
    1234 1234 17179869184 rfl
    (by decide) (by decide) rfl rfl rfl (by decide) rfl (by decide)
    (by decide) (by decide) rfl rfl rfl (by decide) rfl (by decide)).2.2.1 rfl

/-! ## Availability of work -/

/-- C6 as stated fails: with the work cache absent a well-formed submission
is verified twice, stored, forwarded and acknowledged; with the work cache
and the pending-block difficulty both absent a submission rejected by Check 1
gets the invalid-share response after one verification.  Neither run answers
`Current work unavailable`. -/
theorem submitWork_without_work_cache :
    sampleWorldNoWork.currWork.isNone = true ∧
    (handleMiner (sampleEnv true true) sampleVars (some sampleSubmit)
        sampleWorldNoWork).world.rw = [okRequest] ∧
    (handleMiner (sampleEnv true true) sampleVars (some sampleSubmit)
        sampleWorldNoWork).world.verified.length = 2 ∧
    (handleMiner (sampleEnv true true) sampleVars (some sampleSubmit)
        sampleWorldNoWork).world.levelDB.length = 1 ∧
    (handleMiner (sampleEnv true true) sampleVars (some sampleSubmit)
        sampleWorldNoWork).world.upstream.length = 1 ∧
    sampleWorldCold.pendingBlockDifficulty.isNone = true ∧
    (handleMiner (sampleEnv false false) sampleVars (some sampleSubmit)
        sampleWorldCold).world.rw =
      [getErrorResponse (ascii "Provided PoW solution is invalid!"), okRequest] ∧
    (handleMiner (sampleEnv false false) sampleVars (some sampleSubmit)
        sampleWorldCold).world.verified.length = 1 := by
  refine ⟨?_, ?_, ?_, ?_, ?_, ?_, ?_, ?_⟩ <;> rfl

/-- C6 amended: for a request with a valid miner segment and valid JSON, the
`eth_submitWork` path does not consult the work cache: whatever `currWork`
holds, absent or present, the panic status, the response, the store, the
upstream calls and the verifier calls are the same; the
`Current work unavailable` error response, with no verification, no store
write and no forward, is what `eth_getWork` gives when the work cache is
absent. -/
theorem work_cache_only_gates_getWork (env : Env) (vars : Vars) (t : Request) (w : World)
    (hlen : (minerArray vars).length ≤ 2) (haddr : (minerOf vars).length = 40) :
    (t.Method = ascii "eth_submitWork" → ∀ cw : Option ResponseArray,
      (handleMiner env vars (some t) { w with currWork := cw }).panic =
        (handleMiner env vars (some t) w).panic ∧
      (handleMiner env vars (some t) { w with currWork := cw }).world.rw =
        (handleMiner env vars (some t) w).world.rw ∧
      (handleMiner env vars (some t) { w with currWork := cw }).world.levelDB =
        (handleMiner env vars (some t) w).world.levelDB ∧
      (handleMiner env vars (some t) { w with currWork := cw }).world.upstream =
        (handleMiner env vars (some t) w).world.upstream ∧
      (handleMiner env vars (some t) { w with currWork := cw }).world.verified =
        (handleMiner env vars (some t) w).world.verified) ∧
    (t.Method = ascii "eth_getWork" → w.currWork = none →
      (handleMiner env vars (some t) w).panic = none ∧
      (handleMiner env vars (some t) w).world.rw =
        w.rw ++ [getErrorResponse (ascii "Current work unavailable")] ∧
      (handleMiner env vars (some t) w).world.verified = w.verified ∧
      (handleMiner env vars (some t) w).world.levelDB = w.levelDB ∧
      (handleMiner env vars (some t) w).world.upstream = w.upstream) := by
  refine ⟨fun hmethod cw => ?_, fun hmethod hcw => ?_⟩
  · rw [handleMiner_submit env vars t _ hlen haddr hmethod,
      handleMiner_submit env vars t w hlen haddr hmethod]
    have hw : ({ ({ w with currWork := cw } : World) with
        bodyReads := ({ w with currWork := cw } : World).bodyReads + 1 } : World) =
        { ({ w with bodyReads := w.bodyReads + 1 } : World) with currWork := cw } := rfl
    rw [hw, handleSubmitWork_currWork]
    exact ⟨rfl, rfl, rfl, rfl, rfl⟩
  · have hpos := minerArray_length_pos vars
    have hguard : ¬ ((minerArray vars).length = 0 ∨ (minerArray vars).length > 2) := by omega
    simp only [handleMiner]
    rw [if_neg hguard]
    simp [haddr, hmethod, getWorkPackage, hcw, World.write]

/-- Witness of C6 amended: the sample submission with and without a cached
work package. -/
theorem work_cache_only_gates_getWork_witness :
    (handleMiner (sampleEnv true true) sampleVars (some sampleSubmit)
        { sampleWorld with currWork := none }).world.levelDB =
      (handleMiner (sampleEnv true true) sampleVars (some sampleSubmit) sampleWorld).world.levelDB :=
  ((work_cache_only_gates_getWork (sampleEnv true true) sampleVars sampleSubmit sampleWorld
    (by decide) (by decide)).1 rfl none).2.2.1

end Ethpool
